import Mathlib

/-!
Verification development for the KataGo selfplay orchestration layer
(src/cpp/selfplay.cpp): a shallow embedding of the worker game loop, the
model-poller loop, the directory-creation retry logic, and the shutdown
sequence, together with a model of the reference-counted model manager.
-/

set_option maxHeartbeats 1000000

/-! ## Model manager state

Modelled from the spec: the `SelfplayManager` class (acquireLatest, release,
scheduleCleanupModelWhenFree, loadModelAndStartDataWriting) is implemented in
`program/selfplaymanager.cpp`, which is not part of the sources under
analysis; only its call sites in `selfplay.cpp` are.  The definitions below
follow the spec's contract in section 4.1: all handle-state transitions are
serialized through one critical section, so a concurrent history is a
sequence of atomic operations.  `destroyCount` counts how many times the
handle's destroy routine (pipeline flush/close, resource teardown) has run.
-/

structure ModelData where
  modelName : String
  acquireCount : Int
  isDraining : Bool
  destroyCount : Nat
deriving DecidableEq, Repr

structure ManagerState where
  models : List ModelData
deriving DecidableEq, Repr

def initManager : ManagerState := ⟨[]⟩

/-- Modelled from the spec: handles that `acquireLatest` may still offer are
those neither retiring nor destroyed. -/
def ManagerState.acquirable (s : ManagerState) : List ModelData :=
  s.models.filter fun m => !m.isDraining && m.destroyCount == 0

/-- Modelled from the spec: `acquireLatest` returns the newest non-destroyed,
non-retiring handle and increments its reference count; it fails (fatally at
the call site) only when no such model exists. -/
def ManagerState.acquireLatest (s : ManagerState) : Option (ManagerState × String) :=
  match s.acquirable.getLast? with
  | none => none
  | some m =>
    some (⟨s.models.map fun d =>
      if d.modelName == m.modelName then { d with acquireCount := d.acquireCount + 1 } else d⟩,
      m.modelName)

/-- Modelled from the spec: `release` decrements the reference count; when the
handle is retiring and the count reaches zero, the unique releaser runs the
destroy routine.  Releasing a handle the manager never issued a live
reference for is an invariant violation (`none`). -/
def ManagerState.release (s : ManagerState) (name : String) : Option ManagerState :=
  match s.models.find? (fun m => m.modelName == name) with
  | none => none
  | some m =>
    if m.destroyCount ≠ 0 then none
    else if m.acquireCount ≤ 0 then none
    else if m.isDraining && m.acquireCount == 1 then
      some ⟨s.models.map fun d =>
        if d.modelName == name then
          { d with acquireCount := d.acquireCount - 1, destroyCount := d.destroyCount + 1 }
        else d⟩
    else
      some ⟨s.models.map fun d =>
        if d.modelName == name then { d with acquireCount := d.acquireCount - 1 } else d⟩

/-- Modelled from the spec: `scheduleCleanupModelWhenFree` marks the named
handle retiring; if its reference count is already zero the destroy routine
runs immediately, otherwise it runs at the last matching release.  The drain
transition is idempotent: a handle already destroyed is left untouched. -/
def ManagerState.scheduleCleanupModelWhenFree (s : ManagerState) (name : String) :
    Option ManagerState :=
  match s.models.find? (fun m => m.modelName == name) with
  | none => none
  | some m =>
    if m.destroyCount ≠ 0 then some s
    else if m.acquireCount == 0 then
      some ⟨s.models.map fun d =>
        if d.modelName == name then
          { d with isDraining := true, destroyCount := d.destroyCount + 1 }
        else d⟩
    else
      some ⟨s.models.map fun d =>
        if d.modelName == name then { d with isDraining := true } else d⟩

/-- Modelled from the spec: `loadModelAndStartDataWriting` installs a fresh
handle as latest, leaving every previous handle's reference count untouched. -/
def ManagerState.loadModelAndStartDataWriting (s : ManagerState) (name : String) :
    Option ManagerState :=
  match s.models.find? (fun m => m.modelName == name) with
  | some _ => none
  | none => some ⟨s.models ++ [⟨name, 0, false, 0⟩]⟩

/-- One manager operation, as issued by a worker loop or the poller loop. -/
inductive MgrOp where
  | load (name : String)
  | acquire
  | releaseOp (name : String)
  | scheduleCleanup (name : String)
deriving DecidableEq, Repr

def mgrStep (s : ManagerState) : MgrOp → Option ManagerState
  | MgrOp.load n => s.loadModelAndStartDataWriting n
  | MgrOp.acquire => (s.acquireLatest).map Prod.fst
  | MgrOp.releaseOp n => s.release n
  | MgrOp.scheduleCleanup n => s.scheduleCleanupModelWhenFree n

def runOps : ManagerState → List MgrOp → Option ManagerState
  | s, [] => some s
  | s, op :: rest =>
    match mgrStep s op with
    | none => none
    | some s' => runOps s' rest

/-- Manager invariant: model names are distinct, reference counts are never
negative, the destroy routine has run at most once per handle, it has run
only on a retiring handle whose count reached zero, and a retiring handle
whose count is zero has been destroyed. -/
def MgrInv (s : ManagerState) : Prop :=
  (s.models.map ModelData.modelName).Nodup ∧
  (∀ m ∈ s.models, 0 ≤ m.acquireCount) ∧
  (∀ m ∈ s.models, m.destroyCount ≤ 1) ∧
  (∀ m ∈ s.models, m.destroyCount = 1 → m.isDraining = true ∧ m.acquireCount = 0) ∧
  (∀ m ∈ s.models, m.isDraining = true → m.acquireCount = 0 → m.destroyCount = 1)

theorem updateByName_names (l : List ModelData) (name : String) (f : ModelData → ModelData)
    (hf : ∀ d, (f d).modelName = d.modelName) :
    ((l.map fun d => if d.modelName == name then f d else d).map ModelData.modelName)
      = l.map ModelData.modelName := by
  induction l with
  | nil => rfl
  | cons a t ih =>
    simp only [List.map_cons, ih]
    cases h : a.modelName == name
    · simp
    · simp [hf]

theorem mem_updateByName (l : List ModelData) (name : String) (f : ModelData → ModelData)
    (m' : ModelData) (h : m' ∈ l.map fun d => if d.modelName == name then f d else d) :
    ∃ m, m ∈ l ∧ ((m.modelName = name ∧ m' = f m) ∨ (m.modelName ≠ name ∧ m' = m)) := by
  rcases List.mem_map.mp h with ⟨m, hm, hEq⟩
  refine ⟨m, hm, ?_⟩
  by_cases hn : m.modelName = name
  · exact Or.inl ⟨hn, by rw [← hEq]; simp [hn]⟩
  · exact Or.inr ⟨hn, by rw [← hEq]; simp [hn]⟩

theorem name_eq_unique (l : List ModelData) (hnd : (l.map ModelData.modelName).Nodup)
    {m1 m2 : ModelData} (h1 : m1 ∈ l) (h2 : m2 ∈ l) (h : m1.modelName = m2.modelName) :
    m1 = m2 :=
  List.inj_on_of_nodup_map hnd h1 h2 h

theorem forall_updateByName (l : List ModelData) (tgt : ModelData) (f : ModelData → ModelData)
    (P : ModelData → Prop)
    (hnd : (l.map ModelData.modelName).Nodup) (htgt : tgt ∈ l)
    (hold : ∀ m ∈ l, P m) (hnew : P (f tgt)) :
    ∀ m' ∈ l.map fun d => if d.modelName == tgt.modelName then f d else d, P m' := by
  intro m' hm'
  rcases mem_updateByName _ _ _ _ hm' with ⟨m, hm, ⟨hname, hEq⟩ | ⟨_, hEq⟩⟩
  · have hmt : m = tgt := name_eq_unique l hnd hm htgt hname
    rw [hEq, hmt]; exact hnew
  · rw [hEq]; exact hold m hm

theorem mgrInv_init : MgrInv initManager :=
  ⟨List.nodup_nil, fun m hm => absurd hm (List.not_mem_nil m),
   fun m hm => absurd hm (List.not_mem_nil m),
   fun m hm => absurd hm (List.not_mem_nil m),
   fun m hm => absurd hm (List.not_mem_nil m)⟩

theorem mgrInv_load (s s' : ManagerState) (n : String)
    (hInv : MgrInv s) (hstep : s.loadModelAndStartDataWriting n = some s') : MgrInv s' := by
  obtain ⟨hnd, hcnt, hdc, hdc1, hdrain⟩ := hInv
  unfold ManagerState.loadModelAndStartDataWriting at hstep
  cases hfind : s.models.find? (fun m => m.modelName == n) with
  | some m => rw [hfind] at hstep; simp at hstep
  | none =>
    rw [hfind] at hstep
    obtain rfl := Option.some.inj hstep
    have hnotin : ∀ m ∈ s.models, m.modelName ≠ n := by
      intro m hm
      have := List.find?_eq_none.mp hfind m hm
      simpa using this
    refine ⟨?_, ?_, ?_, ?_, ?_⟩
    · simp only [List.map_append, List.map_cons, List.map_nil]
      rw [List.nodup_append]
      refine ⟨hnd, List.nodup_singleton _, ?_⟩
      intro a ha hb
      simp only [List.mem_singleton] at hb
      rcases List.mem_map.mp ha with ⟨m, hm, rfl⟩
      exact hnotin m hm hb
    · intro m' hm'
      rcases List.mem_append.mp hm' with h | h
      · exact hcnt m' h
      · simp only [List.mem_singleton] at h; subst h; simp
    · intro m' hm'
      rcases List.mem_append.mp hm' with h | h
      · exact hdc m' h
      · simp only [List.mem_singleton] at h; subst h; simp
    · intro m' hm'
      rcases List.mem_append.mp hm' with h | h
      · exact hdc1 m' h
      · simp only [List.mem_singleton] at h; subst h; simp
    · intro m' hm'
      rcases List.mem_append.mp hm' with h | h
      · exact hdrain m' h
      · simp only [List.mem_singleton] at h; subst h; simp

theorem mgrInv_acquire (s s' : ManagerState)
    (hInv : MgrInv s) (hstep : (s.acquireLatest).map Prod.fst = some s') : MgrInv s' := by
  obtain ⟨hnd, hcnt, hdc, hdc1, hdrain⟩ := hInv
  unfold ManagerState.acquireLatest at hstep
  cases hlast : s.acquirable.getLast? with
  | none => rw [hlast] at hstep; simp at hstep
  | some tgt =>
    rw [hlast] at hstep
    simp only [Option.map_some'] at hstep
    obtain rfl := Option.some.inj hstep
    have htgtacq : tgt ∈ s.acquirable := List.mem_of_getLast?_eq_some hlast
    have htgtmem : tgt ∈ s.models := (List.mem_filter.mp htgtacq).1
    have htgtflags : tgt.isDraining = false ∧ tgt.destroyCount = 0 := by
      have := (List.mem_filter.mp htgtacq).2
      simpa using this
    refine ⟨?_, ?_, ?_, ?_, ?_⟩
    · rw [updateByName_names s.models tgt.modelName
        (fun d => { d with acquireCount := d.acquireCount + 1 }) (fun d => rfl)]
      exact hnd
    · exact forall_updateByName s.models tgt _ _ hnd htgtmem hcnt
        (by have := hcnt tgt htgtmem; simp only []; omega)
    · exact forall_updateByName s.models tgt _ _ hnd htgtmem hdc
        (by simp only []; omega)
    · exact forall_updateByName s.models tgt _ _ hnd htgtmem hdc1
        (by intro h; exfalso; have h0 := htgtflags.2; simp only [] at h; omega)
    · exact forall_updateByName s.models tgt _ _ hnd htgtmem hdrain
        (by intro h; exfalso; rw [htgtflags.1] at h; exact Bool.false_ne_true h)

theorem mgrInv_release (s s' : ManagerState) (n : String)
    (hInv : MgrInv s) (hstep : s.release n = some s') : MgrInv s' := by
  obtain ⟨hnd, hcnt, hdc, hdc1, hdrain⟩ := hInv
  unfold ManagerState.release at hstep
  cases hfind : s.models.find? (fun m => m.modelName == n) with
  | none => rw [hfind] at hstep; simp at hstep
  | some m0 =>
    rw [hfind] at hstep
    have hm0mem : m0 ∈ s.models := List.mem_of_find?_eq_some hfind
    have hm0name : m0.modelName = n := by simpa using List.find?_some hfind
    subst hm0name
    dsimp only [] at hstep
    split_ifs at hstep with hdc0 hle hbr
    · obtain rfl := Option.some.inj hstep
      have hbr' : m0.isDraining = true ∧ m0.acquireCount = 1 := by
        rcases Bool.and_eq_true _ _ |>.mp hbr with ⟨h1, h2⟩
        exact ⟨h1, by simpa using h2⟩
      have hdc0' : m0.destroyCount = 0 := by omega
      refine ⟨?_, ?_, ?_, ?_, ?_⟩
      · rw [updateByName_names s.models m0.modelName
          (fun d => { d with acquireCount := d.acquireCount - 1,
                             destroyCount := d.destroyCount + 1 }) (fun d => rfl)]
        exact hnd
      · exact forall_updateByName s.models m0 _ _ hnd hm0mem hcnt
          (by simp only []; omega)
      · exact forall_updateByName s.models m0 _ _ hnd hm0mem hdc
          (by simp only []; omega)
      · exact forall_updateByName s.models m0 _ _ hnd hm0mem hdc1
          (by intro _; exact ⟨hbr'.1, by simp only []; omega⟩)
      · exact forall_updateByName s.models m0 _ _ hnd hm0mem hdrain
          (by intro _ _; simp only []; omega)
    · obtain rfl := Option.some.inj hstep
      have hle' : 1 ≤ m0.acquireCount := by omega
      have hdc0' : m0.destroyCount = 0 := by omega
      refine ⟨?_, ?_, ?_, ?_, ?_⟩
      · rw [updateByName_names s.models m0.modelName
          (fun d => { d with acquireCount := d.acquireCount - 1 }) (fun d => rfl)]
        exact hnd
      · exact forall_updateByName s.models m0 _ _ hnd hm0mem hcnt
          (by simp only []; omega)
      · exact forall_updateByName s.models m0 _ _ hnd hm0mem hdc
          (by simp only []; exact hdc m0 hm0mem)
      · exact forall_updateByName s.models m0 _ _ hnd hm0mem hdc1
          (by intro h; exfalso; simp only [] at h; omega)
      · exact forall_updateByName s.models m0 _ _ hnd hm0mem hdrain
          (by
            intro hdr hc0
            exfalso
            simp only [] at hdr hc0
            have : m0.acquireCount = 1 := by omega
            exact hbr (by rw [hdr, this]; rfl))

theorem mgrInv_schedule (s s' : ManagerState) (n : String)
    (hInv : MgrInv s) (hstep : s.scheduleCleanupModelWhenFree n = some s') : MgrInv s' := by
  obtain ⟨hnd, hcnt, hdc, hdc1, hdrain⟩ := hInv
  unfold ManagerState.scheduleCleanupModelWhenFree at hstep
  cases hfind : s.models.find? (fun m => m.modelName == n) with
  | none => rw [hfind] at hstep; simp at hstep
  | some m0 =>
    rw [hfind] at hstep
    have hm0mem : m0 ∈ s.models := List.mem_of_find?_eq_some hfind
    have hm0name : m0.modelName = n := by simpa using List.find?_some hfind
    subst hm0name
    dsimp only [] at hstep
    split_ifs at hstep with hdc0 hzero
    · obtain rfl := Option.some.inj hstep
      exact ⟨hnd, hcnt, hdc, hdc1, hdrain⟩
    · obtain rfl := Option.some.inj hstep
      have hz : m0.acquireCount = 0 := by simpa using hzero
      have hdc0' : m0.destroyCount = 0 := by omega
      refine ⟨?_, ?_, ?_, ?_, ?_⟩
      · rw [updateByName_names s.models m0.modelName
          (fun d => { d with isDraining := true,
                             destroyCount := d.destroyCount + 1 }) (fun d => rfl)]
        exact hnd
      · exact forall_updateByName s.models m0 _ _ hnd hm0mem hcnt
          (by simp only []; omega)
      · exact forall_updateByName s.models m0 _ _ hnd hm0mem hdc
          (by simp only []; omega)
      · exact forall_updateByName s.models m0 _ _ hnd hm0mem hdc1
          (by intro _; exact ⟨rfl, by simp only []; omega⟩)
      · exact forall_updateByName s.models m0 _ _ hnd hm0mem hdrain
          (by intro _ _; simp only []; omega)
    · obtain rfl := Option.some.inj hstep
      have hnz : m0.acquireCount ≠ 0 := by
        intro h; exact hzero (by simpa using h)
      have hdc0' : m0.destroyCount = 0 := by omega
      refine ⟨?_, ?_, ?_, ?_, ?_⟩
      · rw [updateByName_names s.models m0.modelName
          (fun d => { d with isDraining := true }) (fun d => rfl)]
        exact hnd
      · exact forall_updateByName s.models m0 _ _ hnd hm0mem hcnt
          (by simp only []; exact hcnt m0 hm0mem)
      · exact forall_updateByName s.models m0 _ _ hnd hm0mem hdc
          (by simp only []; exact hdc m0 hm0mem)
      · exact forall_updateByName s.models m0 _ _ hnd hm0mem hdc1
          (by intro h; exfalso; simp only [] at h; omega)
      · exact forall_updateByName s.models m0 _ _ hnd hm0mem hdrain
          (by intro _ hc0; exfalso; simp only [] at hc0; exact hnz hc0)

theorem mgrInv_step (s s' : ManagerState) (op : MgrOp)
    (hInv : MgrInv s) (hstep : mgrStep s op = some s') : MgrInv s' := by
  cases op with
  | load n => exact mgrInv_load s s' n hInv hstep
  | acquire => exact mgrInv_acquire s s' hInv hstep
  | releaseOp n => exact mgrInv_release s s' n hInv hstep
  | scheduleCleanup n => exact mgrInv_schedule s s' n hInv hstep

theorem runOps_inv (ops : List MgrOp) : ∀ (s s' : ManagerState),
    MgrInv s → runOps s ops = some s' → MgrInv s' := by
  induction ops with
  | nil =>
    intro s s' hInv h
    simp only [runOps] at h
    exact (Option.some.inj h) ▸ hInv
  | cons op rest ih =>
    intro s s' hInv h
    simp only [runOps] at h
    cases hstep : mgrStep s op with
    | none => rw [hstep] at h; simp at h
    | some s1 =>
      rw [hstep] at h
      exact ih s1 s' (mgrInv_step s s1 op hInv hstep) h

/-- Reference count the manager records for the named handle (0 if unknown). -/
def getCount (s : ManagerState) (n : String) : Int :=
  match s.models.find? (fun m => m.modelName == n) with
  | some m => m.acquireCount
  | none => 0

/-- Name of the handle `acquireLatest` would return. -/
def latestAcquirable (s : ManagerState) : Option String :=
  (s.acquirable.getLast?).map ModelData.modelName

/-- Mid-game model-swap callback of the worker game loop, from `selfplay.cpp`
(`checkForNewNNEval`): re-acquire the latest handle; if it is the handle already
held, release the freshly acquired reference and signal no-new-model (`none`);
otherwise release the previously held handle, adopt the new one and return it. -/
def checkForNewNNEval (s : ManagerState) (nnEval : String) :
    Option (ManagerState × String × Option String) :=
  match s.acquireLatest with
  | none => none
  | some (s1, newNNEval) =>
    if newNNEval == nnEval then
      match s1.release newNNEval with
      | none => none
      | some s2 => some (s2, nnEval, none)
    else
      match s1.release nnEval with
      | none => none
      | some s2 => some (s2, newNNEval, some newNNEval)

theorem find?_eq_of_mem_nodup (l : List ModelData) (hnd : (l.map ModelData.modelName).Nodup)
    (m : ModelData) (hm : m ∈ l) :
    l.find? (fun d => d.modelName == m.modelName) = some m := by
  cases hfind : l.find? (fun d => d.modelName == m.modelName) with
  | none => exact absurd (List.find?_eq_none.mp hfind m hm) (by simp)
  | some m' =>
    have h1 : m' ∈ l := List.mem_of_find?_eq_some hfind
    have h2 : m'.modelName = m.modelName := by simpa using List.find?_some hfind
    rw [name_eq_unique l hnd h1 hm h2]

theorem find?_updateByName (l : List ModelData) (k : String) (f : ModelData → ModelData)
    (hf : ∀ d, (f d).modelName = d.modelName) (n : String) :
    (l.map fun d => if d.modelName == k then f d else d).find? (fun m => m.modelName == n)
      = (l.find? (fun m => m.modelName == n)).map
          (fun d => if d.modelName == k then f d else d) := by
  have hp : ((fun m : ModelData => m.modelName == n) ∘
      fun d => if d.modelName == k then f d else d)
      = fun m : ModelData => m.modelName == n := by
    funext d
    simp only [Function.comp]
    cases h : d.modelName == k <;> simp [h, hf]
  rw [List.find?_map, hp]

theorem getCount_updateByName (l : List ModelData) (k : String) (f : ModelData → ModelData)
    (hf : ∀ d, (f d).modelName = d.modelName) (n : String) (hnk : n ≠ k) :
    getCount ⟨l.map fun d => if d.modelName == k then f d else d⟩ n = getCount ⟨l⟩ n := by
  unfold getCount
  rw [find?_updateByName l k f hf n]
  cases hfind : l.find? (fun m => m.modelName == n) with
  | none => rfl
  | some m =>
    have hname : m.modelName = n := by simpa using List.find?_some hfind
    simp [hname, hnk]

theorem getCount_updateByName_self (l : List ModelData) (f : ModelData → ModelData)
    (hf : ∀ d, (f d).modelName = d.modelName)
    (hnd : (l.map ModelData.modelName).Nodup) (m : ModelData) (hm : m ∈ l) :
    getCount ⟨l.map fun d => if d.modelName == m.modelName then f d else d⟩ m.modelName
      = (f m).acquireCount := by
  unfold getCount
  rw [find?_updateByName l m.modelName f hf m.modelName,
    find?_eq_of_mem_nodup l hnd m hm]
  simp

theorem getCount_of_mem_nodup (l : List ModelData)
    (hnd : (l.map ModelData.modelName).Nodup) (m : ModelData) (hm : m ∈ l) :
    getCount ⟨l⟩ m.modelName = m.acquireCount := by
  unfold getCount
  rw [find?_eq_of_mem_nodup l hnd m hm]

/-- Claim C4: in every invocation of the mid-game swap callback, if the manager's
latest handle equals the handle the worker currently holds, the callback releases
the freshly acquired reference and returns the no-new-model signal, leaving every
handle's net reference count unchanged; if the latest handle differs, the callback
releases the previously held handle, adopts the new one and returns it, so the
worker ends the call holding exactly one new reference to the latest handle
(latest's count up by one, the old handle's count down by one, others unchanged). -/
theorem checkForNewNNEvalSpec (s : ManagerState) (held latest : String)
    (heldM : ModelData)
    (hInv : MgrInv s)
    (hL : latestAcquirable s = some latest)
    (hheldmem : heldM ∈ s.models) (hheldname : heldM.modelName = held)
    (hhelddc : heldM.destroyCount = 0) (hheldcnt : 1 ≤ heldM.acquireCount) :
    (latest = held →
      ∃ s2, checkForNewNNEval s held = some (s2, held, none) ∧
        ∀ n, getCount s2 n = getCount s n) ∧
    (latest ≠ held →
      ∃ s2, checkForNewNNEval s held = some (s2, latest, some latest) ∧
        getCount s2 latest = getCount s latest + 1 ∧
        getCount s2 held = getCount s held - 1 ∧
        ∀ n, n ≠ latest → n ≠ held → getCount s2 n = getCount s n) := by
  obtain ⟨hnd, hcnt, hdc, hdc1, hdrain⟩ := hInv
  unfold latestAcquirable at hL
  cases hlast : s.acquirable.getLast? with
  | none => rw [hlast] at hL; simp at hL
  | some tgt =>
    rw [hlast] at hL
    simp only [Option.map_some'] at hL
    obtain rfl := Option.some.inj hL
    have htgtacq : tgt ∈ s.acquirable := List.mem_of_getLast?_eq_some hlast
    have htgtmem : tgt ∈ s.models := (List.mem_filter.mp htgtacq).1
    have htgtflags : tgt.isDraining = false ∧ tgt.destroyCount = 0 := by
      have := (List.mem_filter.mp htgtacq).2
      simpa using this
    have hacq : s.acquireLatest = some
        (⟨s.models.map fun d => if d.modelName == tgt.modelName then
            { d with acquireCount := d.acquireCount + 1 } else d⟩, tgt.modelName) := by
      unfold ManagerState.acquireLatest
      rw [hlast]
    have hnd1 : ((s.models.map fun d => if d.modelName == tgt.modelName then
        { d with acquireCount := d.acquireCount + 1 } else d).map ModelData.modelName).Nodup := by
      rw [updateByName_names s.models tgt.modelName
        (fun d => { d with acquireCount := d.acquireCount + 1 }) (fun d => rfl)]
      exact hnd
    constructor
    · -- latest handle is the one already held
      intro hEq
      subst hheldname
      have hht : heldM = tgt := name_eq_unique s.models hnd hheldmem htgtmem hEq.symm
      rw [hht] at hhelddc hheldcnt ⊢
      have hmem1 : ({ tgt with acquireCount := tgt.acquireCount + 1 } : ModelData) ∈
          s.models.map fun d => if d.modelName == tgt.modelName then
            { d with acquireCount := d.acquireCount + 1 } else d := by
        refine List.mem_map.mpr ⟨tgt, htgtmem, ?_⟩
        rw [if_pos (beq_self_eq_true tgt.modelName)]
      have hfind1 : (s.models.map fun d => if d.modelName == tgt.modelName then
          { d with acquireCount := d.acquireCount + 1 } else d).find?
            (fun m => m.modelName == tgt.modelName)
          = some { tgt with acquireCount := tgt.acquireCount + 1 } := by
        rw [find?_updateByName s.models tgt.modelName
          (fun d => { d with acquireCount := d.acquireCount + 1 }) (fun d => rfl) tgt.modelName]
        rw [find?_eq_of_mem_nodup s.models hnd tgt htgtmem]
        simp only [Option.map_some']
        rw [if_pos (beq_self_eq_true tgt.modelName)]
      have hrel : (ManagerState.release
          ⟨s.models.map fun d => if d.modelName == tgt.modelName then
            { d with acquireCount := d.acquireCount + 1 } else d⟩ tgt.modelName)
          = some ⟨(s.models.map fun d => if d.modelName == tgt.modelName then
              { d with acquireCount := d.acquireCount + 1 } else d).map fun d =>
                if d.modelName == tgt.modelName then
                  { d with acquireCount := d.acquireCount - 1 }
                else d⟩ := by
        unfold ManagerState.release
        rw [hfind1]
        dsimp only []
        split_ifs with h1 h2 h3
        · exact absurd htgtflags.2 h1
        · exact absurd h2 (by omega)
        · exfalso
          rw [htgtflags.1] at h3
          simp at h3
        · rfl
      refine ⟨⟨(s.models.map fun d => if d.modelName == tgt.modelName then
          { d with acquireCount := d.acquireCount + 1 } else d).map fun d =>
            if d.modelName == tgt.modelName then
              { d with acquireCount := d.acquireCount - 1 }
            else d⟩, ?_, ?_⟩
      · unfold checkForNewNNEval
        rw [hacq]
        dsimp only []
        rw [if_pos (beq_self_eq_true tgt.modelName), hrel]
      · intro n
        by_cases hn : n = tgt.modelName
        · subst hn
          have hself : getCount ⟨(s.models.map fun d => if d.modelName == tgt.modelName then
              { d with acquireCount := d.acquireCount + 1 } else d).map fun d =>
                if d.modelName == tgt.modelName then
                  { d with acquireCount := d.acquireCount - 1 }
                else d⟩ tgt.modelName
              = tgt.acquireCount + 1 - 1 :=
            getCount_updateByName_self _
              (fun d => { d with acquireCount := d.acquireCount - 1 }) (fun d => rfl)
              hnd1 { tgt with acquireCount := tgt.acquireCount + 1 } hmem1
          rw [hself, getCount_of_mem_nodup s.models hnd tgt htgtmem]
          omega
        · rw [getCount_updateByName _ tgt.modelName
            (fun d => { d with acquireCount := d.acquireCount - 1 }) (fun d => rfl) n hn]
          exact getCount_updateByName s.models tgt.modelName
            (fun d => { d with acquireCount := d.acquireCount + 1 }) (fun d => rfl) n hn
    · -- a genuinely new latest handle
      intro hNe
      have hhne : heldM.modelName ≠ tgt.modelName := by
        rw [hheldname]; exact fun hc => hNe hc.symm
      have hmem1 : heldM ∈ s.models.map fun d => if d.modelName == tgt.modelName then
          { d with acquireCount := d.acquireCount + 1 } else d := by
        refine List.mem_map.mpr ⟨heldM, hheldmem, ?_⟩
        rw [if_neg (by simp [hhne])]
      have hfind1 : (s.models.map fun d => if d.modelName == tgt.modelName then
          { d with acquireCount := d.acquireCount + 1 } else d).find?
            (fun m => m.modelName == held) = some heldM := by
        rw [find?_updateByName s.models tgt.modelName
          (fun d => { d with acquireCount := d.acquireCount + 1 }) (fun d => rfl) held]
        rw [← hheldname, find?_eq_of_mem_nodup s.models hnd heldM hheldmem]
        simp only [Option.map_some']
        rw [if_neg (by simp [hhne])]
      -- counts after the two updates, for any keyed decrement of the held handle
      have main : ∀ f2 : ModelData → ModelData,
          (∀ d, (f2 d).modelName = d.modelName) →
          (∀ d, (f2 d).acquireCount = d.acquireCount - 1) →
          getCount ⟨(s.models.map fun d => if d.modelName == tgt.modelName then
              { d with acquireCount := d.acquireCount + 1 } else d).map fun d =>
                if d.modelName == held then f2 d else d⟩ tgt.modelName
            = getCount s tgt.modelName + 1 ∧
          getCount ⟨(s.models.map fun d => if d.modelName == tgt.modelName then
              { d with acquireCount := d.acquireCount + 1 } else d).map fun d =>
                if d.modelName == held then f2 d else d⟩ held
            = getCount s held - 1 ∧
          ∀ n, n ≠ tgt.modelName → n ≠ held →
            getCount ⟨(s.models.map fun d => if d.modelName == tgt.modelName then
              { d with acquireCount := d.acquireCount + 1 } else d).map fun d =>
                if d.modelName == held then f2 d else d⟩ n = getCount s n := by
        intro f2 hf2name hf2cnt
        refine ⟨?_, ?_, ?_⟩
        · rw [getCount_updateByName _ held f2 hf2name tgt.modelName
            (fun hc => hNe hc)]
          rw [getCount_updateByName_self s.models
            (fun d => { d with acquireCount := d.acquireCount + 1 }) (fun d => rfl)
            hnd tgt htgtmem]
          rw [getCount_of_mem_nodup s.models hnd tgt htgtmem]
        · have hself : getCount ⟨(s.models.map fun d =>
              if d.modelName == tgt.modelName then
                { d with acquireCount := d.acquireCount + 1 } else d).map fun d =>
                  if d.modelName == held then f2 d else d⟩ held
              = (f2 heldM).acquireCount := by
            rw [← hheldname]
            exact getCount_updateByName_self _ f2 hf2name hnd1 heldM hmem1
          rw [hself, hf2cnt, ← hheldname,
            getCount_of_mem_nodup s.models hnd heldM hheldmem]
        · intro n hn1 hn2
          rw [getCount_updateByName _ held f2 hf2name n hn2]
          exact getCount_updateByName s.models tgt.modelName
            (fun d => { d with acquireCount := d.acquireCount + 1 }) (fun d => rfl) n hn1
      by_cases hdr : (heldM.isDraining && heldM.acquireCount == 1) = true
      · have hrel : (ManagerState.release
            ⟨s.models.map fun d => if d.modelName == tgt.modelName then
              { d with acquireCount := d.acquireCount + 1 } else d⟩ held)
            = some ⟨(s.models.map fun d => if d.modelName == tgt.modelName then
                { d with acquireCount := d.acquireCount + 1 } else d).map fun d =>
                  if d.modelName == held then
                    { d with acquireCount := d.acquireCount - 1,
                             destroyCount := d.destroyCount + 1 }
                  else d⟩ := by
          unfold ManagerState.release
          rw [hfind1]
          dsimp only []
          split_ifs with h1 h2
          · exact absurd hhelddc h1
          · exact absurd h2 (by omega)
          · rfl
        refine ⟨⟨(s.models.map fun d => if d.modelName == tgt.modelName then
            { d with acquireCount := d.acquireCount + 1 } else d).map fun d =>
              if d.modelName == held then
                { d with acquireCount := d.acquireCount - 1,
                         destroyCount := d.destroyCount + 1 }
              else d⟩, ?_, ?_⟩
        · unfold checkForNewNNEval
          rw [hacq]
          dsimp only []
          rw [if_neg (by simpa using hNe), hrel]
        · exact main (fun d => { d with acquireCount := d.acquireCount - 1, destroyCount := d.destroyCount + 1 }) (fun d => rfl) (fun d => rfl)
      · have hrel : (ManagerState.release
            ⟨s.models.map fun d => if d.modelName == tgt.modelName then
              { d with acquireCount := d.acquireCount + 1 } else d⟩ held)
            = some ⟨(s.models.map fun d => if d.modelName == tgt.modelName then
                { d with acquireCount := d.acquireCount + 1 } else d).map fun d =>
                  if d.modelName == held then
                    { d with acquireCount := d.acquireCount - 1 }
                  else d⟩ := by
          unfold ManagerState.release
          rw [hfind1]
          dsimp only []
          split_ifs with h1 h2
          · exact absurd hhelddc h1
          · exact absurd h2 (by omega)
          · rfl
        refine ⟨⟨(s.models.map fun d => if d.modelName == tgt.modelName then
            { d with acquireCount := d.acquireCount + 1 } else d).map fun d =>
              if d.modelName == held then
                { d with acquireCount := d.acquireCount - 1 }
              else d⟩, ?_, ?_⟩
        · unfold checkForNewNNEval
          rw [hacq]
          dsimp only []
          rw [if_neg (by simpa using hNe), hrel]
        · exact main (fun d => { d with acquireCount := d.acquireCount - 1 })
            (fun d => rfl) (fun d => rfl)

def c4State : ManagerState :=
  ⟨[⟨"netA", 1, false, 0⟩, ⟨"netB", 0, false, 0⟩]⟩

/-- Witness for C4 at a concrete state: a worker holds `netA` while `netB` is the
latest; the callback swaps to `netB`, returning it, bumping netB's count and
dropping netA's. -/
theorem checkForNewNNEvalSpec_witness :
    ("netB" : String) ≠ "netA" ∧
    ∃ s2, checkForNewNNEval c4State "netA" = some (s2, "netB", some "netB") ∧
      getCount s2 "netB" = getCount c4State "netB" + 1 ∧
      getCount s2 "netA" = getCount c4State "netA" - 1 ∧
      ∀ n, n ≠ "netB" → n ≠ "netA" → getCount s2 n = getCount c4State n :=
  ⟨by decide,
    (checkForNewNNEvalSpec c4State "netA" "netB" ⟨"netA", 1, false, 0⟩
      (by unfold MgrInv; decide)
      (by decide) (by decide) (by decide) (by decide) (by decide)).2 (by decide)⟩

/-- Claim C1: for every sequence of acquireLatest/release/scheduleCleanupModelWhenFree
(and load) operations issued against the manager — serialized through its single
critical section — every handle's reference count stays non-negative, the destroy
routine runs at most once per handle, it runs only on a handle that is retiring
with reference count zero, and a retiring handle whose count has reached zero has
had its destroy routine run (so it runs exactly once, exactly at that transition). -/
theorem managerRefCountSafety (ops : List MgrOp) (s' : ManagerState)
    (h : runOps initManager ops = some s') :
    (∀ m ∈ s'.models, 0 ≤ m.acquireCount) ∧
    (∀ m ∈ s'.models, m.destroyCount ≤ 1) ∧
    (∀ m ∈ s'.models, m.destroyCount = 1 → m.isDraining = true ∧ m.acquireCount = 0) ∧
    (∀ m ∈ s'.models, m.isDraining = true → m.acquireCount = 0 → m.destroyCount = 1) := by
  obtain ⟨_, hcnt, hdc, hdc1, hdrain⟩ := runOps_inv ops initManager s' mgrInv_init h
  exact ⟨hcnt, hdc, hdc1, hdrain⟩

def c1Ops : List MgrOp :=
  [MgrOp.load "netA", MgrOp.acquire, MgrOp.load "netB",
   MgrOp.scheduleCleanup "netA", MgrOp.releaseOp "netA"]

def c1Final : ManagerState :=
  ⟨[⟨"netA", 0, true, 1⟩, ⟨"netB", 0, false, 0⟩]⟩

/-- Witness for C1 at a concrete operation sequence: load netA, a worker acquires
it, netB is loaded, netA is scheduled for cleanup while still held, and the
worker's release then triggers the (single) destruction of netA. -/
theorem managerRefCountSafety_witness :
    (∀ m ∈ c1Final.models, 0 ≤ m.acquireCount) ∧
    (∀ m ∈ c1Final.models, m.destroyCount ≤ 1) ∧
    (∀ m ∈ c1Final.models, m.destroyCount = 1 → m.isDraining = true ∧ m.acquireCount = 0) ∧
    (∀ m ∈ c1Final.models, m.isDraining = true → m.acquireCount = 0 → m.destroyCount = 1) :=
  managerRefCountSafety c1Ops c1Final (by decide)

/-! ## Worker game loop, as an event-trace model

One iteration of `gameLoop` in `selfplay.cpp`: acquire the latest handle,
draw a game index from the shared atomic counter, call
`countOneGameStarted`, run the game when the index is below `maxGamesTotal`
(during which the mid-game swap callback may fire any number of times),
enqueue the finished game data on the handle held at completion, and release
that handle.  The trace records each manager interaction in program order.
-/

inductive Ev where
  | acquire (name : String)
  | rel (name : String)
  | countStart (name : String)
  | runGame (idx : Int) (name : String)
  | enqueue (name : String)
deriving DecidableEq, Repr

/-- One invocation of the `checkForNewNNEval` callback, seen as the manager
interactions it performs: it acquires the latest handle `g`; if `g` is the
handle already held it releases the fresh reference (`rel h` — same handle),
otherwise it releases the old handle and the worker now holds `g`. -/
inductive CallbackTrace : String → List Ev → String → Prop where
  | same (h : String) : CallbackTrace h [Ev.acquire h, Ev.rel h] h
  | swap (h g : String) (hne : g ≠ h) : CallbackTrace h [Ev.acquire g, Ev.rel h] g

/-- The manager interactions performed inside `runGame`: zero or more
callback invocations, threading the held handle through. -/
inductive BodyTrace : String → List Ev → String → Prop where
  | nil (h : String) : BodyTrace h [] h
  | cons (h h' h'' : String) (evs rest : List Ev) :
      CallbackTrace h evs h' → BodyTrace h' rest h'' → BodyTrace h (evs ++ rest) h''

/-- One iteration of the worker loop from `selfplay.cpp` (`gameLoop`), given
the game index `idx` drawn from the shared counter: the `Bool` is
`shouldContinue` (`gameData != NULL`).  Note `countStart` is emitted before
the `idx < maxGamesTotal` check, exactly as in the source. -/
inductive IterTrace (maxGamesTotal : Int) : Int → List Ev → Bool → Prop where
  | stopAtMax (idx : Int) (h : String) (hge : maxGamesTotal ≤ idx) :
      IterTrace maxGamesTotal idx [Ev.acquire h, Ev.countStart h, Ev.rel h] false
  | runCompleted (idx : Int) (h h' : String) (body : List Ev) (hlt : idx < maxGamesTotal)
      (hb : BodyTrace h body h') :
      IterTrace maxGamesTotal idx
        ([Ev.acquire h, Ev.countStart h, Ev.runGame idx h] ++ body ++ [Ev.enqueue h', Ev.rel h'])
        true
  | runCancelled (idx : Int) (h h' : String) (body : List Ev) (hlt : idx < maxGamesTotal)
      (hb : BodyTrace h body h') :
      IterTrace maxGamesTotal idx
        ([Ev.acquire h, Ev.countStart h, Ev.runGame idx h] ++ body ++ [Ev.rel h'])
        false

/-- Net change an event makes to the number of handle references the worker holds. -/
def heldDelta : Ev → Int
  | Ev.acquire _ => 1
  | Ev.rel _ => -1
  | _ => 0

/-- Number of handle references the worker holds after a list of events. -/
def heldCount (evs : List Ev) : Int := (evs.map heldDelta).sum

theorem heldCount_append (a b : List Ev) : heldCount (a ++ b) = heldCount a + heldCount b := by
  simp [heldCount]

theorem heldCount_nil : heldCount [] = 0 := rfl

theorem bodyTrace_no_enqueue (h0 : String) (body : List Ev) (h' : String)
    (hb : BodyTrace h0 body h') : ∀ g, Ev.enqueue g ∉ body := by
  induction hb with
  | nil => intro g hg; exact absurd hg (List.not_mem_nil _)
  | cons h h1 h2 evs rest hcb hbt ih =>
    intro g hg
    rcases List.mem_append.mp hg with hmem | hmem
    · cases hcb with
      | same => simp at hmem
      | swap => simp at hmem
    · exact ih g hmem

/-- Claim C5: for every completed game (an iteration whose `runGame` returned
data, i.e. `shouldContinue = true`), the trace enqueues the game record exactly
once, tagged with the handle held at game completion — the handle the swap
callbacks threaded to, which may differ from the one held at game start — and
the final release of that handle comes only after the enqueue (it is the last
event, immediately after the enqueue). -/
theorem completedGameEnqueuedOnce (maxG idx : Int) (evs : List Ev)
    (h : IterTrace maxG idx evs true) :
    ∃ h0 body h', BodyTrace h0 body h' ∧
      evs = [Ev.acquire h0, Ev.countStart h0, Ev.runGame idx h0] ++ body ++
        [Ev.enqueue h', Ev.rel h'] ∧
      (∀ g, Ev.enqueue g ∈ evs → g = h') ∧
      (∀ g, Ev.enqueue g ∉ [Ev.acquire h0, Ev.countStart h0, Ev.runGame idx h0] ++ body) := by
  cases h with
  | runCompleted h0 h' body hlt hb =>
    refine ⟨h0, body, h', hb, rfl, ?_, ?_⟩
    · intro g hg
      rcases List.mem_append.mp hg with hmem | hmem
      · rcases List.mem_append.mp hmem with hm2 | hm2
        · simp at hm2
        · exact absurd hm2 (bodyTrace_no_enqueue h0 body h' hb g)
      · simpa using hmem
    · intro g hg
      rcases List.mem_append.mp hg with hm2 | hm2
      · simp at hm2
      · exact absurd hm2 (bodyTrace_no_enqueue h0 body h' hb g)

def c5Trace : List Ev :=
  [Ev.acquire "net0", Ev.countStart "net0", Ev.runGame 0 "net0",
   Ev.enqueue "net0", Ev.rel "net0"]

/-- Witness for C5 at a concrete completed-game trace with no mid-game swap. -/
theorem completedGameEnqueuedOnce_witness :
    ∃ h0 body h', BodyTrace h0 body h' ∧
      c5Trace = [Ev.acquire h0, Ev.countStart h0, Ev.runGame 0 h0] ++ body ++
        [Ev.enqueue h', Ev.rel h'] ∧
      (∀ g, Ev.enqueue g ∈ c5Trace → g = h') ∧
      (∀ g, Ev.enqueue g ∉ [Ev.acquire h0, Ev.countStart h0, Ev.runGame 0 h0] ++ body) :=
  completedGameEnqueuedOnce 4 0 c5Trace
    (IterTrace.runCompleted 0 "net0" "net0" [] (by decide) (BodyTrace.nil "net0"))

def c3Trace : List Ev := [Ev.acquire "onlynet", Ev.countStart "onlynet", Ev.rel "onlynet"]

/-- Claim C3, behavior of the code at the failing input: with numGamesTotal = 1,
the iteration that draws game index 1 (already at the ceiling) invokes no
runGame, enqueues nothing, and stops after releasing — but it still records
"one game started" against the acquired handle (`countOneGameStarted` is called
before the `gameIdx < maxGamesTotal` check in `selfplay.cpp`), contradicting
the claim that no such recording happens. -/
theorem pastCeilingStillCountsGameStarted :
    IterTrace 1 1 c3Trace false ∧
    Ev.countStart "onlynet" ∈ c3Trace ∧
    (∀ i n, Ev.runGame i n ∉ c3Trace) ∧
    (∀ n, Ev.enqueue n ∉ c3Trace) := by
  refine ⟨IterTrace.stopAtMax 1 "onlynet" (by decide), by decide, ?_, ?_⟩
  · intro i n hmem
    simp [c3Trace] at hmem
  · intro n hmem
    simp [c3Trace] at hmem

def c10Trace : List Ev :=
  [Ev.acquire "oldnet", Ev.countStart "oldnet", Ev.runGame 0 "oldnet",
   Ev.acquire "newnet", Ev.rel "oldnet", Ev.enqueue "newnet", Ev.rel "newnet"]

/-- Counterexample to claim C10 as stated: in a valid iteration trace with one
mid-game swap, immediately after the callback's acquire (prefix of length 4)
the worker holds two references, not exactly one, although this point lies
strictly between the iteration's initial acquire and its final release. -/
theorem workerHoldsTwoRefsDuringSwap :
    IterTrace 5 0 c10Trace true ∧
    0 < 4 ∧ 4 < c10Trace.length ∧
    heldCount (c10Trace.take 4) = 2 := by
  refine ⟨?_, by decide, by decide, by decide⟩
  exact IterTrace.runCompleted 0 "oldnet" "newnet" [Ev.acquire "newnet", Ev.rel "oldnet"]
    (by decide)
    (BodyTrace.cons "oldnet" "newnet" "newnet" [Ev.acquire "newnet", Ev.rel "oldnet"] []
      (CallbackTrace.swap "oldnet" "newnet" (by decide)) (BodyTrace.nil "newnet"))

theorem callbackTrace_bounds (h0 : String) (evs : List Ev) (h' : String)
    (hc : CallbackTrace h0 evs h') :
    evs.length = 2 ∧ heldCount evs = 0 ∧
      ∀ k, 0 ≤ heldCount (evs.take k) ∧ heldCount (evs.take k) ≤ 1 := by
  cases hc with
  | same =>
    refine ⟨rfl, by simp [heldCount, heldDelta], ?_⟩
    intro k
    match k with
    | 0 => simp [heldCount]
    | 1 => simp [heldCount, heldDelta]
    | j + 2 =>
      rw [List.take_of_length_le (by simp)]
      simp [heldCount, heldDelta]
  | swap g hne =>
    refine ⟨rfl, by simp [heldCount, heldDelta], ?_⟩
    intro k
    match k with
    | 0 => simp [heldCount]
    | 1 => simp [heldCount, heldDelta]
    | j + 2 =>
      rw [List.take_of_length_le (by simp)]
      simp [heldCount, heldDelta]

theorem bodyTrace_bounds (h0 : String) (body : List Ev) (h' : String)
    (hb : BodyTrace h0 body h') :
    heldCount body = 0 ∧
      ∀ k, 0 ≤ heldCount (body.take k) ∧ heldCount (body.take k) ≤ 1 := by
  induction hb with
  | nil h =>
    refine ⟨rfl, ?_⟩
    intro k
    simp [heldCount]
  | cons h h1 h2 evs rest hcb hbt ih =>
    obtain ⟨hlen, hz, hpre⟩ := callbackTrace_bounds h evs h1 hcb
    obtain ⟨ihz, ihp⟩ := ih
    constructor
    · rw [heldCount_append, hz, ihz]
      simp
    · intro k
      rw [List.take_append_eq_append_take, heldCount_append]
      rcases Nat.lt_or_ge k 2 with hk | hk
      · have hzero : k - evs.length = 0 := by omega
        rw [hzero]
        simp only [List.take_zero, heldCount_nil]
        have := hpre k
        omega
      · have hall : evs.take k = evs := List.take_of_length_le (by omega)
        rw [hall, hz]
        have := ihp (k - evs.length)
        omega

theorem heldCount_take_append (a b : List Ev) (k : Nat) :
    heldCount ((a ++ b).take k) = heldCount (a.take k) + heldCount (b.take (k - a.length)) := by
  rw [List.take_append_eq_append_take, heldCount_append]

/-- Claim C10 (amended): in every iteration of the worker loop the acquires
(the initial one plus those inside swap callbacks) balance the releases by the
end of the iteration — the held-reference balance is zero at every iteration
boundary, so a terminating worker leaks no references; between the initial
acquire and the final release the worker holds at least one and at most two
references (two only transiently inside a swap-callback invocation, between
the callback's acquire and its matching release), not exactly one at all
times. -/
theorem gameLoopRefBalance (maxG idx : Int) (evs : List Ev) (cont : Bool)
    (h : IterTrace maxG idx evs cont) :
    heldCount evs = 0 ∧
    ∀ k, 0 < k → k < evs.length →
      1 ≤ heldCount (evs.take k) ∧ heldCount (evs.take k) ≤ 2 := by
  cases h with
  | stopAtMax h hge =>
    constructor
    · norm_num [heldCount, heldDelta]
    · intro k hk0 hklen
      simp only [List.length_cons, List.length_nil] at hklen
      have hk : k = 1 ∨ k = 2 := by omega
      rcases hk with rfl | rfl
      · constructor <;> norm_num [heldCount, heldDelta]
      · constructor <;> norm_num [heldCount, heldDelta]
  | runCompleted h0 h' body hlt hb =>
    obtain ⟨hbz, hbp⟩ := bodyTrace_bounds h0 body h' hb
    constructor
    · rw [heldCount_append, heldCount_append, hbz]
      norm_num [heldCount, heldDelta]
    · intro k hk0 hklen
      simp only [List.length_append, List.length_cons, List.length_nil] at hklen
      rw [heldCount_take_append, heldCount_take_append]
      simp only [List.length_append, List.length_cons, List.length_nil]
      norm_num
      have hA : heldCount (([Ev.acquire h0, Ev.countStart h0,
          Ev.runGame idx h0] : List Ev).take k) = 1 := by
        have hk : k = 1 ∨ k = 2 ∨ 3 ≤ k := by omega
        rcases hk with rfl | rfl | hk3
        · norm_num [heldCount, heldDelta]
        · norm_num [heldCount, heldDelta]
        · rw [List.take_of_length_le (by simp; omega)]
          norm_num [heldCount, heldDelta]
      have hBody := hbp (k - 3)
      have hB : heldCount (([Ev.enqueue h', Ev.rel h'] : List Ev).take
          (k - (3 + body.length))) = 0 := by
        have hj : k - (3 + body.length) = 0 ∨ k - (3 + body.length) = 1 := by omega
        rcases hj with hj | hj <;> rw [hj] <;> norm_num [heldCount, heldDelta]
      rw [hA, hB]
      constructor <;> omega
  | runCancelled h0 h' body hlt hb =>
    obtain ⟨hbz, hbp⟩ := bodyTrace_bounds h0 body h' hb
    constructor
    · rw [heldCount_append, heldCount_append, hbz]
      norm_num [heldCount, heldDelta]
    · intro k hk0 hklen
      simp only [List.length_append, List.length_cons, List.length_nil] at hklen
      rw [heldCount_take_append, heldCount_take_append]
      simp only [List.length_append, List.length_cons, List.length_nil]
      norm_num
      have hA : heldCount (([Ev.acquire h0, Ev.countStart h0,
          Ev.runGame idx h0] : List Ev).take k) = 1 := by
        have hk : k = 1 ∨ k = 2 ∨ 3 ≤ k := by omega
        rcases hk with rfl | rfl | hk3
        · norm_num [heldCount, heldDelta]
        · norm_num [heldCount, heldDelta]
        · rw [List.take_of_length_le (by simp; omega)]
          norm_num [heldCount, heldDelta]
      have hBody := hbp (k - 3)
      have hB : heldCount (([Ev.rel h'] : List Ev).take (k - (3 + body.length))) = 0 := by
        have hj : k - (3 + body.length) = 0 := by omega
        rw [hj]
        norm_num [heldCount]
      rw [hA, hB]
      constructor <;> omega

/-- Witness for the amended C10 claim at the concrete one-swap trace. -/
theorem gameLoopRefBalance_witness :
    heldCount c10Trace = 0 ∧
    ∀ k, 0 < k → k < c10Trace.length →
      1 ≤ heldCount (c10Trace.take k) ∧ heldCount (c10Trace.take k) ≤ 2 :=
  gameLoopRefBalance 5 0 c10Trace true
    (IterTrace.runCompleted 0 "oldnet" "newnet" [Ev.acquire "newnet", Ev.rel "oldnet"]
      (by decide)
      (BodyTrace.cons "oldnet" "newnet" "newnet" [Ev.acquire "newnet", Ev.rel "oldnet"] []
        (CallbackTrace.swap "oldnet" "newnet" (by decide)) (BodyTrace.nil "newnet")))

/-! ## Model poller: directory-creation retries, model loading, final sweep -/

inductive DirEv where
  | attempt (i : Nat)
  | sleepBackoff (i : Nat)
deriving DecidableEq, Repr

/-- Directory-creation retry loop of `loadLatestNeuralNetIntoManager` in
`selfplay.cpp` (`for i = 0; i < maxTries; i++`): `oracle i` says whether the
i-th group of `MakeDir::make` calls succeeds; on success break out, on a
failure of the last try (`i == maxTries-1`) give up with false, otherwise
sleep a randomized backoff and continue.  `remaining` stands for
`maxTries - i`, making the loop structural. -/
def dirLoopGo (oracle : Nat → Bool) : Nat → Nat → List DirEv × Bool
  | 0, _ => ([], false)
  | remaining + 1, i =>
    if oracle i then ([DirEv.attempt i], true)
    else if remaining = 0 then ([DirEv.attempt i], false)
    else
      let r := dirLoopGo oracle remaining (i + 1)
      (DirEv.attempt i :: DirEv.sleepBackoff i :: r.1, r.2)

/-- The retry loop as called in the source, with `maxTries = 5`. -/
def makeDirsWithRetries (oracle : Nat → Bool) : List DirEv × Bool := dirLoopGo oracle 5 0

def isAttempt : DirEv → Bool
  | DirEv.attempt _ => true
  | DirEv.sleepBackoff _ => false

def attemptCount (evs : List DirEv) : Nat := evs.countP isAttempt

/-- Two's-complement wrap of a mathematical integer into a 32-bit C++ `int`. -/
def intWrap (z : Int) : Int := (z + 2 ^ 31) % 2 ^ 32 - 2 ^ 31

/-- Concurrency budget computed in `loadLatestNeuralNetIntoManager`:
`cfg.getInt("numSearchThreads") * numGameThreads * 2 + 16`, each step in C++
`int` arithmetic. -/
def maxConcurrentEvals (numSearchThreads numGameThreads : Int) : Int :=
  intWrap (intWrap (intWrap (numSearchThreads * numGameThreads) * 2) + 16)

/-- The budget formula as the spec words it:
`searchThreadsPerWorker × numWorkers × 2 + headroom`, in exact integer
arithmetic. -/
def specConcurrencyBudget (searchThreadsPerWorker numWorkers headroom : Int) : Int :=
  searchThreadsPerWorker * numWorkers * 2 + headroom

structure LoadOutcome where
  loaded : Bool
  dirEvents : List DirEv
  evalBudget : Option Int
deriving DecidableEq, Repr

/-- `loadLatestNeuralNetIntoManager` from `selfplay.cpp`, abstracted over its
environment: `foundModel` is the model name `LoadModel::findLatestModel`
reports (none when no model is present), `lastNetName` the caller's last seen
name (NULL at startup), and `dirOracle` whether each directory-creation
attempt succeeds.  Returns whether a new net was loaded, the directory-retry
trace, and the concurrency budget handed to the evaluator-construction
collaborator when execution reaches that point (it is computed before the
directory loop in the source). -/
def loadLatestNeuralNetIntoManager (foundModel : Option String)
    (lastNetName : Option String) (numSearchThreads numGameThreads : Int)
    (dirOracle : Nat → Bool) : LoadOutcome :=
  match foundModel with
  | none => ⟨false, [], none⟩
  | some modelName =>
    if lastNetName = some modelName then ⟨false, [], none⟩
    else
      let budget := maxConcurrentEvals numSearchThreads numGameThreads
      let dirs := makeDirsWithRetries dirOracle
      if dirs.2 then ⟨true, dirs.1, some budget⟩
      else ⟨false, dirs.1, some budget⟩

/-- Targets of the poller's final cleanup sweep at shutdown (`modelLoadLoop`
in `selfplay.cpp`): `for (i = 0; i < modelNames.size()-1; i++)`, i.e. every
known model name except the last (newest).  By this point the startup load
has succeeded, so the name list is nonempty. -/
def finalCleanupTargets (modelNames : List String) : List String :=
  modelNames.take (modelNames.length - 1)

inductive PollerOutcome where
  | exitLoop
  | sleepAndRepoll
deriving DecidableEq, Repr

/-- One iteration of the poller loop body (`modelLoadLoop`): check the stop
flag, poll and (maybe) load, on success schedule cleanup of every known model
but the newest, re-check the stop flag, then sleep and re-poll.  `stopA` and
`stopB` are the iteration's two reads of `shouldStop`; the result carries the
names passed to `scheduleCleanupModelWhenFree` during the iteration. -/
def modelLoadLoopIter (stopA : Bool) (mgrModelNames : List String) (loadOk : Bool)
    (stopB : Bool) : PollerOutcome × List String :=
  if stopA then (PollerOutcome.exitLoop, [])
  else
    let cleanups := if loadOk then mgrModelNames.take (mgrModelNames.length - 1) else []
    if stopB then (PollerOutcome.exitLoop, cleanups)
    else (PollerOutcome.sleepAndRepoll, cleanups)

/-! ## Startup and shutdown sequencing of MainCmds::selfplay -/

def startupLoadErrorMsg : String :=
  "Either could not load latest neural net or access/write appopriate directories"

inductive MainPhaseResult where
  | fatalBeforeWorkers (msg : String)
  | workersStarted (numThreads : Nat)
deriving DecidableEq, Repr

/-- Startup of `MainCmds::selfplay` around the initial model load: when
`loadLatestNeuralNetIntoManager(NULL)` returns false a StringError is thrown
before any game-loop thread is created; otherwise the worker threads are
started. -/
def selfplayMainPhase (initialLoadOk : Bool) (numGameThreads : Nat) : MainPhaseResult :=
  if initialLoadOk then MainPhaseResult.workersStarted numGameThreads
  else MainPhaseResult.fatalBeforeWorkers startupLoadErrorMsg

inductive ShutdownEv where
  | joinGameThread (i : Nat)
  | storeShouldStop
  | notifyPoller
  | joinPollerThread
deriving DecidableEq, Repr

/-- Shutdown sequence at the end of `MainCmds::selfplay`: join every game
thread, then unconditionally store true into `shouldStop`, then (under the
model-load mutex) notify the poller's sleep condition variable and join the
poller thread. -/
def shutdownSequence (numGameThreads : Nat) : List ShutdownEv :=
  ((List.range numGameThreads).map ShutdownEv.joinGameThread) ++
    [ShutdownEv.storeShouldStop, ShutdownEv.notifyPoller, ShutdownEv.joinPollerThread]

/-- Effect of a shutdown event on the `shouldStop` flag: the store writes
true; no event ever writes false (the flag is monotonic). -/
def stepFlag (b : Bool) (e : ShutdownEv) : Bool :=
  match e with
  | ShutdownEv.storeShouldStop => true
  | _ => b

def flagAfterEvents (b0 : Bool) (evs : List ShutdownEv) : Bool := evs.foldl stepFlag b0

/-- Claim C2, behavior of the code at the failing input: at shutdown, with the
manager knowing two models (newest last), the final retirement sweep schedules
cleanup only for the older model and never passes the newest model to
`scheduleCleanupModelWhenFree` (the loop bound is `modelNames.size()-1`),
contradicting the claim that every known model name, the newest included, is
swept. -/
theorem finalSweepSkipsLatestModel :
    finalCleanupTargets ["olderNet", "latestNet"] = ["olderNet"] ∧
    "latestNet" ∉ finalCleanupTargets ["olderNet", "latestNet"] := by
  constructor
  · rfl
  · decide

theorem takeWhile_shutdown_joins (l : List Nat) :
    ((l.map ShutdownEv.joinGameThread) ++
      [ShutdownEv.storeShouldStop, ShutdownEv.notifyPoller,
       ShutdownEv.joinPollerThread]).takeWhile (fun e => e != ShutdownEv.notifyPoller)
      = (l.map ShutdownEv.joinGameThread) ++ [ShutdownEv.storeShouldStop] := by
  induction l with
  | nil => rfl
  | cons a t ih =>
    simp only [List.map_cons, List.cons_append]
    rw [List.takeWhile_cons_of_pos (by rfl)]
    rw [ih]

theorem flagAfterEvents_joins (b0 : Bool) (l : List Nat) :
    flagAfterEvents b0 (l.map ShutdownEv.joinGameThread) = b0 := by
  induction l generalizing b0 with
  | nil => rfl
  | cons a t ih => exact ih b0

/-- Claim C6: in the main shutdown sequence every game-thread join precedes
the (unconditional, idempotent) store of true into the shutdown flag, which
precedes the poller notification, which precedes the poller join; and for
either prior value of the flag, the flag that the notification point observes
is true — the poller's termination never depends on a stale false flag. -/
theorem shutdownFlagForcedBeforePollerNotify (numGameThreads : Nat) (b0 : Bool) :
    shutdownSequence numGameThreads =
      ((List.range numGameThreads).map ShutdownEv.joinGameThread) ++
        [ShutdownEv.storeShouldStop, ShutdownEv.notifyPoller,
         ShutdownEv.joinPollerThread] ∧
    (shutdownSequence numGameThreads).takeWhile (fun e => e != ShutdownEv.notifyPoller)
      = ((List.range numGameThreads).map ShutdownEv.joinGameThread) ++
          [ShutdownEv.storeShouldStop] ∧
    flagAfterEvents b0 ((shutdownSequence numGameThreads).takeWhile
      (fun e => e != ShutdownEv.notifyPoller)) = true := by
  refine ⟨rfl, takeWhile_shutdown_joins (List.range numGameThreads), ?_⟩
  unfold shutdownSequence
  rw [takeWhile_shutdown_joins (List.range numGameThreads)]
  unfold flagAfterEvents
  rw [List.foldl_append]
  have : List.foldl stepFlag b0 ((List.range numGameThreads).map ShutdownEv.joinGameThread)
      = b0 := flagAfterEvents_joins b0 (List.range numGameThreads)
  rw [this]
  rfl

theorem dirLoopGo_attempts (oracle : Nat → Bool) :
    ∀ fuel i, attemptCount (dirLoopGo oracle fuel i).1 ≤ fuel := by
  intro fuel
  induction fuel with
  | zero => intro i; simp [dirLoopGo, attemptCount]
  | succ rem ih =>
    intro i
    simp only [dirLoopGo]
    split_ifs with h1 h2
    · simp [attemptCount, List.countP_cons, isAttempt]
    · simp [attemptCount, List.countP_cons, isAttempt]
    · dsimp only []
      have := ih (i + 1)
      simp only [attemptCount, List.countP_cons] at this ⊢
      simp [isAttempt]
      omega

theorem dirLoopGo_success (oracle : Nat → Bool) :
    ∀ fuel i, (dirLoopGo oracle fuel i).2 = true ↔ ∃ j, j < fuel ∧ oracle (i + j) = true := by
  intro fuel
  induction fuel with
  | zero =>
    intro i
    constructor
    · intro h; simp [dirLoopGo] at h
    · rintro ⟨j, hj, _⟩; omega
  | succ rem ih =>
    intro i
    simp only [dirLoopGo]
    split_ifs with h1 h2
    · simp only [true_iff]
      exact ⟨0, by omega, by simpa using h1⟩
    · subst h2
      constructor
      · intro h; exact absurd h (by simp)
      · rintro ⟨j, hj, ho⟩
        have hj0 : j = 0 := by omega
        subst hj0
        simp at ho
        exact absurd ho h1
    · rw [ih (i + 1)]
      constructor
      · rintro ⟨j, hj, ho⟩
        exact ⟨j + 1, by omega, by rw [show i + (j + 1) = i + 1 + j by omega]; exact ho⟩
      · rintro ⟨j, hj, ho⟩
        match j with
        | 0 => exact absurd (by simpa using ho) h1
        | j' + 1 =>
          exact ⟨j', by omega, by rw [show i + 1 + j' = i + (j' + 1) by omega]; exact ho⟩

theorem dirLoopGo_attempt_head (oracle : Nat → Bool) (rem i : Nat) :
    DirEv.attempt i ∈ (dirLoopGo oracle (rem + 1) i).1 := by
  simp only [dirLoopGo]
  split_ifs <;> simp

theorem dirLoopGo_sleep_mem (oracle : Nat → Bool) :
    ∀ fuel i j, DirEv.sleepBackoff j ∈ (dirLoopGo oracle fuel i).1 →
      oracle j = false ∧ DirEv.attempt j ∈ (dirLoopGo oracle fuel i).1 ∧
        DirEv.attempt (j + 1) ∈ (dirLoopGo oracle fuel i).1 := by
  intro fuel
  induction fuel with
  | zero => intro i j h; simp [dirLoopGo] at h
  | succ rem ih =>
    intro i j h
    simp only [dirLoopGo] at h ⊢
    split_ifs at h ⊢ with h1 h2
    · simp at h
    · simp at h
    · rcases List.mem_cons.mp h with hc | h'
      · exact absurd hc (by simp)
      · rcases List.mem_cons.mp h' with hc | h''
        · have hj : j = i := by simpa using hc
          subst hj
          have hrem : rem ≠ 0 := h2
          obtain ⟨rem', rfl⟩ : ∃ rem', rem = rem' + 1 := ⟨rem - 1, by omega⟩
          refine ⟨by simpa using h1, by simp, ?_⟩
          have hhd := dirLoopGo_attempt_head oracle rem' (j + 1)
          simp only [List.mem_cons]
          exact Or.inr (Or.inr hhd)
        · obtain ⟨ho, ha, ha1⟩ := ih (i + 1) j h''
          refine ⟨ho, ?_, ?_⟩
          · simp only [List.mem_cons]; exact Or.inr (Or.inr ha)
          · simp only [List.mem_cons]; exact Or.inr (Or.inr ha1)

theorem loadLatest_eq (m : String) (last : Option String) (s g : Int) (o : Nat → Bool)
    (hNew : last ≠ some m) :
    loadLatestNeuralNetIntoManager (some m) last s g o
      = ⟨(makeDirsWithRetries o).2, (makeDirsWithRetries o).1,
          some (maxConcurrentEvals s g)⟩ := by
  unfold loadLatestNeuralNetIntoManager
  dsimp only []
  rw [if_neg hNew]
  split_ifs with h
  · rw [h]
  · rw [Bool.eq_false_iff.mpr h]

/-- Claim C7: on every poll cycle in which a genuinely new model is found,
directory creation is attempted at most 5 times, with a backoff sleep
occurring only between a failed attempt and the following attempt; the load
reports success iff one of the first 5 attempts succeeds; and when all 5
attempts fail it returns false (no exception is modelled because the source
catches the error), while the poller loop with the stop flag unset goes on to
sleep and re-poll, so the model is retried on a later cycle. -/
theorem dirCreationBoundedRetryNonFatal (m : String) (last : Option String)
    (s g : Int) (o : Nat → Bool) (names : List String) (hNew : last ≠ some m) :
    attemptCount (loadLatestNeuralNetIntoManager (some m) last s g o).dirEvents ≤ 5 ∧
    ((loadLatestNeuralNetIntoManager (some m) last s g o).loaded = true ↔
      ∃ j, j < 5 ∧ o j = true) ∧
    (∀ j, DirEv.sleepBackoff j ∈
        (loadLatestNeuralNetIntoManager (some m) last s g o).dirEvents →
      o j = false ∧
      DirEv.attempt j ∈ (loadLatestNeuralNetIntoManager (some m) last s g o).dirEvents ∧
      DirEv.attempt (j + 1) ∈
        (loadLatestNeuralNetIntoManager (some m) last s g o).dirEvents) ∧
    ((∀ j, j < 5 → o j = false) →
      (loadLatestNeuralNetIntoManager (some m) last s g o).loaded = false ∧
      modelLoadLoopIter false names false false = (PollerOutcome.sleepAndRepoll, [])) := by
  rw [loadLatest_eq m last s g o hNew]
  dsimp only []
  have hsucc : (makeDirsWithRetries o).2 = true ↔ ∃ j, j < 5 ∧ o j = true := by
    unfold makeDirsWithRetries
    rw [dirLoopGo_success o 5 0]
    constructor
    · rintro ⟨j, hj, ho⟩; exact ⟨j, hj, by simpa using ho⟩
    · rintro ⟨j, hj, ho⟩; exact ⟨j, hj, by simpa using ho⟩
  refine ⟨dirLoopGo_attempts o 5 0, hsucc, ?_, ?_⟩
  · intro j hj
    exact dirLoopGo_sleep_mem o 5 0 j hj
  · intro hall
    constructor
    · rcases hb : (makeDirsWithRetries o).2 with _ | _
      · rfl
      · exfalso
        obtain ⟨j, hj, ho⟩ := hsucc.mp hb
        rw [hall j hj] at ho
        exact Bool.false_ne_true ho
    · rfl

/-- Witness for C7 with an oracle on which every directory-creation attempt
fails: the load gives up after 5 attempts, non-fatally, and the poller
iteration sleeps and re-polls. -/
theorem dirCreationBoundedRetryNonFatal_witness :
    attemptCount (loadLatestNeuralNetIntoManager (some "net0") none 1 1
      (fun _ => false)).dirEvents ≤ 5 ∧
    ((loadLatestNeuralNetIntoManager (some "net0") none 1 1
      (fun _ => false)).loaded = true ↔ ∃ j, j < 5 ∧ (fun _ : Nat => false) j = true) ∧
    (∀ j, DirEv.sleepBackoff j ∈ (loadLatestNeuralNetIntoManager (some "net0") none 1 1
        (fun _ => false)).dirEvents →
      (fun _ : Nat => false) j = false ∧
      DirEv.attempt j ∈ (loadLatestNeuralNetIntoManager (some "net0") none 1 1
        (fun _ => false)).dirEvents ∧
      DirEv.attempt (j + 1) ∈ (loadLatestNeuralNetIntoManager (some "net0") none 1 1
        (fun _ => false)).dirEvents) ∧
    ((∀ j, j < 5 → (fun _ : Nat => false) j = false) →
      (loadLatestNeuralNetIntoManager (some "net0") none 1 1
        (fun _ => false)).loaded = false ∧
      modelLoadLoopIter false ["net0"] false false
        = (PollerOutcome.sleepAndRepoll, [])) :=
  dirCreationBoundedRetryNonFatal "net0" none 1 1 (fun _ => false) ["net0"] (by decide)

/-- Claim C8: when the very first (startup) load attempt fails — here, no
model is found at all — the main sequence fails fatally with the startup
error before any worker thread is created, while a successful startup load
starts the workers; by contrast the same failure in a later poll cycle is
non-fatal: the poller iteration just sleeps and re-polls. -/
theorem startupLoadFatalPollLoadNonFatal (n : Nat) (names : List String)
    (s g : Int) (o : Nat → Bool) :
    (loadLatestNeuralNetIntoManager none none s g o).loaded = false ∧
    selfplayMainPhase (loadLatestNeuralNetIntoManager none none s g o).loaded n
      = MainPhaseResult.fatalBeforeWorkers startupLoadErrorMsg ∧
    selfplayMainPhase true n = MainPhaseResult.workersStarted n ∧
    modelLoadLoopIter false names false false = (PollerOutcome.sleepAndRepoll, []) :=
  ⟨rfl, rfl, rfl, rfl⟩

theorem intWrap_eq_self (z : Int) (h1 : -(2 ^ 31) ≤ z) (h2 : z < 2 ^ 31) :
    intWrap z = z := by
  unfold intWrap
  have hmod : (z + 2 ^ 31) % 2 ^ 32 = z + 2 ^ 31 :=
    Int.emod_eq_of_lt (by omega) (by omega)
  omega

/-- Claim C9: for every successful model load, the concurrency budget passed
to the evaluator-construction collaborator equals
`numSearchThreads * numGameThreads * 2 + 16` — the spec's
searchThreadsPerWorker × numWorkers × 2 + headroom with headroom 16 — computed
exactly: under the stated bounds no step of the C++ `int` computation wraps. -/
theorem evalBudgetMatchesSpec (m : String) (last : Option String)
    (s g : Int) (o : Nat → Bool)
    (h1 : 0 ≤ s) (h2 : 0 ≤ g) (h3 : s * g * 2 + 16 < 2 ^ 31)
    (hLoaded : (loadLatestNeuralNetIntoManager (some m) last s g o).loaded = true) :
    (loadLatestNeuralNetIntoManager (some m) last s g o).evalBudget
      = some (specConcurrencyBudget s g 16) := by
  have hNew : last ≠ some m := by
    intro hc
    rw [hc] at hLoaded
    unfold loadLatestNeuralNetIntoManager at hLoaded
    simp at hLoaded
  rw [loadLatest_eq m last s g o hNew]
  dsimp only []
  congr 1
  have hmul : 0 ≤ s * g := mul_nonneg h1 h2
  unfold maxConcurrentEvals specConcurrencyBudget
  generalize ht : s * g = t at hmul h3 ⊢
  rw [intWrap_eq_self t (by omega) (by omega)]
  rw [intWrap_eq_self (t * 2) (by omega) (by omega)]
  rw [intWrap_eq_self (t * 2 + 16) (by omega) (by omega)]

/-- Witness for C9 at numSearchThreads = 16, numGameThreads = 8, on a
successful load. -/
theorem evalBudgetMatchesSpec_witness :
    (loadLatestNeuralNetIntoManager (some "net0") none 16 8
      (fun _ => true)).evalBudget = some (specConcurrencyBudget 16 8 16) :=
  evalBudgetMatchesSpec "net0" none 16 8 (fun _ => true)
    (by decide) (by decide) (by decide) (by decide)
